import Mathlib

/-! Application-layer parser framework (`src/app-layer-parser.h`).

A shallow embedding of the data model, the constants and the inline lookup
function of `app-layer-parser.h`, followed by the properties established
about them.

Conventions of the embedding:

* machine integers (`uint8_t`, `uint16_t`, `uint32_t`) are natural numbers;
  where a store into a narrower field can wrap, the reduction `% 2^w` is
  written out;
* a pointer to an `AppLayerProbingParser` is an address (`Ptr`), `NULL` is
  address `0`, and the heap is a partial map from addresses to records;
* the `while` loop of `AppLayerGetProbingParsers` is iterated with explicit
  fuel; `none` means that the fuel ran out or a pointer outside the heap was
  followed;
* a buffer given as pointer and length (`input` / `input_len`, `store` /
  `store_len`, `data_ptr` / `data_len`) is a list of bytes;
* functions whose bodies are not in the header are modelled from the
  specification; their doc comments say so.
-/

namespace AppLayerParser

/-! ## Constants -/

def ALP_RESULT_ELMT_ALLOC : Nat := 0x01

def APP_LAYER_PARSER_USE : Nat := 0x01
def APP_LAYER_PARSER_EOF : Nat := 0x02
def APP_LAYER_PARSER_DONE : Nat := 0x04
def APP_LAYER_PARSER_NO_INSPECTION : Nat := 0x08
def APP_LAYER_PARSER_NO_REASSEMBLY : Nat := 0x10

def APP_LAYER_TRANSACTION_EOF : Nat := 0x01
def APP_LAYER_TRANSACTION_TOSERVER : Nat := 0x02
def APP_LAYER_TRANSACTION_TOCLIENT : Nat := 0x04

def APP_LAYER_PROBING_PARSER_PRIORITY_HIGH : Nat := 1
def APP_LAYER_PROBING_PARSER_PRIORITY_MEDIUM : Nat := 2
def APP_LAYER_PROBING_PARSER_PRIORITY_LOW : Nat := 3

/-- The five `APP_LAYER_PARSER_*` flag constants, in the order of the header. -/
def parserFlagConstants : List Nat :=
  [APP_LAYER_PARSER_USE, APP_LAYER_PARSER_EOF, APP_LAYER_PARSER_DONE,
   APP_LAYER_PARSER_NO_INSPECTION, APP_LAYER_PARSER_NO_REASSEMBLY]

/-! ## Data model -/

/-- An address of an `AppLayerProbingParser` record. -/
abbrev Ptr := Nat

/-- The null pointer. -/
def NULL : Ptr := 0

/-- Struct `AppLayerProbingParserElement_`; the `next` link is the tail of the
list the element sits in, the probe function takes the input bytes and
`input_len` and returns an `al_proto` id. -/
structure AppLayerProbingParserElement where
  al_proto : Nat
  port : Nat
  priority : Nat
  top : Nat
  min_depth : Nat
  max_depth : Nat
  ProbingParser : List Nat → Nat → Nat

/-- Struct `AppLayerProbingParser_`; `toserver` and `toclient` are the two
element chains, `next` is the address of the next per-port record. -/
structure AppLayerProbingParser where
  port : Nat
  toserver_max_depth : Nat
  toclient_max_depth : Nat
  toserver : List AppLayerProbingParserElement
  toclient : List AppLayerProbingParserElement
  next : Ptr

/-- The heap holding the per-port records. -/
abbrev Memory := Ptr → Option AppLayerProbingParser

/-- The `port` field of the record stored at address `a`, if there is one. -/
def portAt (mem : Memory) (a : Ptr) : Option Nat :=
  (mem a).map (fun r => r.port)

/-- `IsChain mem p addrs`: following `next` from `p` visits exactly the
addresses `addrs`, all of them allocated and non-null, and then reaches
`NULL`.  This is a finite, null-terminated chain. -/
def IsChain (mem : Memory) : Ptr → List Ptr → Prop
  | p, [] => p = NULL
  | p, a :: rest => p = a ∧ a ≠ NULL ∧ ∃ r, mem a = some r ∧ IsChain mem r.next rest

/-! ## `AppLayerGetProbingParsers` -/

/-- The loop `while (pp != NULL) { if (pp->port == port) break; pp = pp->next; }`
followed by `return pp`, run for at most `fuel` tests of the loop condition. -/
def searchLoop (mem : Memory) (port : Nat) : Nat → Ptr → Option Ptr
  | 0, _ => none
  | fuel + 1, pp =>
    if pp = NULL then some pp
    else
      match mem pp with
      | none => none
      | some r => if r.port = port then some pp else searchLoop mem port fuel r.next

/-- The inline function `AppLayerGetProbingParsers(probing_parsers, ip_proto, port)`. -/
def AppLayerGetProbingParsers (mem : Memory) (fuel : Nat) (probing_parsers : Ptr)
    (ip_proto : Nat) (port : Nat) : Option Ptr :=
  if probing_parsers = NULL then some NULL
  else searchLoop mem port fuel probing_parsers

/-! ## Parser state and transaction cursors -/

/-- Struct `AppLayerParserState_`; the pair `store` / `store_len` is the one
list `store`, whose length is `store_len`; `curParser` is the field
named cur-parser in the header. -/
structure AppLayerParserState where
  flags : Nat
  curParser : Nat
  store : List Nat
  parse_field : Nat
deriving DecidableEq, Repr

/-- Struct `AppLayerParserStateStore_`. -/
structure AppLayerParserStateStore where
  to_client : AppLayerParserState
  to_server : AppLayerParserState
  id_flags : Nat
  inspect_id : Nat
  logged_id : Nat
  avail_id : Nat
  base_id : Nat
deriving DecidableEq, Repr

/-- Struct `AppLayerParserResultElmt_`; the pair `data_ptr` / `data_len` is the
list `data`, the `next` link is the tail of the result list. -/
structure AppLayerParserResultElmt where
  flags : Nat
  name_idx : Nat
  data : List Nat
deriving DecidableEq, Repr

/-- Struct `AppLayerParserResult_`: the list of result elements from `head`
to `tail`, `cnt` being its length. -/
abbrev AppLayerParserResult := List AppLayerParserResultElmt

/-- The relations `base_id ≤ inspect_id ≤ avail_id` and
`base_id ≤ logged_id ≤ avail_id` between the four cursors. -/
def cursorInvariant (s : AppLayerParserStateStore) : Prop :=
  s.base_id ≤ s.inspect_id ∧ s.inspect_id ≤ s.avail_id ∧
  s.base_id ≤ s.logged_id ∧ s.logged_id ≤ s.avail_id

instance (s : AppLayerParserStateStore) : Decidable (cursorInvariant s) := by
  unfold cursorInvariant; infer_instance

/-- Modelled from the spec: the body of a protocol's `StateUpdateTransactionId`
callback (only the function-pointer field of `AppLayerProto` is in the
header).  The callback receives the protocol state and a pointer to
`avail_id`; `transaction_cnt` is the number of transactions the protocol state
has counted, read as a `uint16_t`.  Spec 3 and 4.4: `avail_id` advances only
when the callback reports a new transaction, a new transaction increments it,
and it never moves backward; so the callback raises `avail_id` to the reported
count when that is larger and leaves it alone otherwise. -/
def StateUpdateTransactionId (transaction_cnt : Nat) (s : AppLayerParserStateStore) :
    AppLayerParserStateStore :=
  if s.avail_id < transaction_cnt % 65536 then { s with avail_id := transaction_cnt % 65536 }
  else s

/-- Modelled from the spec: `AppLayerTransactionUpdateInspectId` (declared in
the header, body absent).  Spec 3 and 4.4: `inspect_id` is the highest id fully
inspected, advanced only through this function, never backward and never
beyond `avail_id`; one call advances it by one transaction when one is
available.  The increment cannot wrap: it is made below `avail_id`, itself a
`uint16_t`. -/
def AppLayerTransactionUpdateInspectId (s : AppLayerParserStateStore) :
    AppLayerParserStateStore :=
  if s.inspect_id < s.avail_id then { s with inspect_id := s.inspect_id + 1 } else s

/-- Modelled from the spec: `AppLayerTransactionUpdateLoggedId` (declared in
the header, body absent).  Spec 3 and 4.4: `logged_id` is the highest id fully
logged, advanced only through this function, never backward and never beyond
`avail_id`; one call advances it by one transaction when one is available.
The increment cannot wrap: it is made below `avail_id`, itself a `uint16_t`. -/
def AppLayerTransactionUpdateLoggedId (s : AppLayerParserStateStore) :
    AppLayerParserStateStore :=
  if s.logged_id < s.avail_id then { s with logged_id := s.logged_id + 1 } else s

/-- Modelled from the spec: the pruning done when the protocol's
`StateTransactionFree` callback is driven by the flow's cleanup (body absent).
Spec 4.4: it prunes the transactions no consumer still needs, so `base_id`
advances up to `min(inspect_id, logged_id)` and no further. -/
def AppLayerTransactionsCleanup (s : AppLayerParserStateStore) : AppLayerParserStateStore :=
  if s.base_id < min s.inspect_id s.logged_id then
    { s with base_id := min s.inspect_id s.logged_id }
  else s

/-- The four operations on a flow's transaction cursors; the state-update
callback comes with the transaction count of the protocol state. -/
inductive CursorOp where
  | stateUpdate (transaction_cnt : Nat)
  | updateInspectId
  | updateLoggedId
  | transactionFree
deriving DecidableEq, Repr

/-- Effect of one cursor operation. -/
def applyCursorOp : CursorOp → AppLayerParserStateStore → AppLayerParserStateStore
  | .stateUpdate transaction_cnt, s => StateUpdateTransactionId transaction_cnt s
  | .updateInspectId, s => AppLayerTransactionUpdateInspectId s
  | .updateLoggedId, s => AppLayerTransactionUpdateLoggedId s
  | .transactionFree, s => AppLayerTransactionsCleanup s

/-- A parser state with no flags and an empty carry-over buffer. -/
def freshParserState : AppLayerParserState := ⟨0, 0, [], 0⟩

/-- A state store with the given cursors and fresh per-direction states. -/
def cursors (inspect_id logged_id avail_id base_id : Nat) : AppLayerParserStateStore :=
  ⟨freshParserState, freshParserState, 0, inspect_id, logged_id, avail_id, base_id⟩

/-! ## Probing: registration and dispatch -/

/-- The largest `max_depth` among the elements of a chain, 0 for the empty
chain. -/
def chainMaxDepth (chain : List AppLayerProbingParserElement) : Nat :=
  chain.foldr (fun pe m => max pe.max_depth m) 0

/-- The per-port record stores, for each direction, the maximum of the
`max_depth` values of that direction's chain. -/
def depthRecorded (pp : AppLayerProbingParser) : Prop :=
  pp.toserver_max_depth = chainMaxDepth pp.toserver ∧
  pp.toclient_max_depth = chainMaxDepth pp.toclient

/-- Modelled from the spec: the insertion of a new element into a direction's
chain done by `AppLayerRegisterProbingParser` (body absent).  Spec 4.2: the
chain is kept in priority order, lower value first; within equal priority
registration order is kept, unless the "top" marker forces the new probe to
the front of its priority class. -/
def AppLayerInsertNewProbingParserElement (new_pe : AppLayerProbingParserElement) :
    List AppLayerProbingParserElement → List AppLayerProbingParserElement
  | [] => [new_pe]
  | pe :: next =>
    if new_pe.priority < pe.priority ∨ (new_pe.top ≠ 0 ∧ new_pe.priority = pe.priority) then
      new_pe :: pe :: next
    else pe :: AppLayerInsertNewProbingParserElement new_pe next

/-- Modelled from the spec: `AppLayerRegisterProbingParser` (prototype in the
header, body absent), as its effect on the per-port record of `port`: `pp` is
the record that `AppLayerGetProbingParsers` finds for the port, `none` when the
port has no record yet.  Spec 3: the probe is chained by port, and the record
keeps, per direction, the maximum depth across all registered probes.  The
arguments are converted to the parameter types of the prototype (`uint16_t`
for `port`, `al_proto`, `min_depth`, `max_depth`; `uint8_t` for `priority`,
`top`); `toserver` is the direction selected by the `flags` argument. -/
def AppLayerRegisterProbingParser (pp : Option AppLayerProbingParser)
    (ip_proto port al_proto min_depth max_depth : Nat) (toserver : Bool)
    (priority top : Nat) (ProbingParser : List Nat → Nat → Nat) : AppLayerProbingParser :=
  let new_pe : AppLayerProbingParserElement :=
    ⟨al_proto % 65536, port % 65536, priority % 256, top % 256,
     min_depth % 65536, max_depth % 65536, ProbingParser⟩
  let r : AppLayerProbingParser := pp.getD ⟨port % 65536, 0, 0, [], [], NULL⟩
  if toserver then
    { r with toserver := AppLayerInsertNewProbingParserElement new_pe r.toserver,
             toserver_max_depth := max r.toserver_max_depth new_pe.max_depth }
  else
    { r with toclient := AppLayerInsertNewProbingParserElement new_pe r.toclient,
             toclient_max_depth := max r.toclient_max_depth new_pe.max_depth }

/-- What a sequence of registrations preserves on a per-port record. -/
def registrationInvariant (pp : AppLayerProbingParser) : Prop :=
  depthRecorded pp ∧ ∀ pe ∈ pp.toserver ++ pp.toclient, pe.max_depth < 65536

/-- The arguments of one registration call for a given port. -/
structure ProbeRegistration where
  ip_proto : Nat
  al_proto : Nat
  min_depth : Nat
  max_depth : Nat
  toserver : Bool
  priority : Nat
  top : Nat
  ProbingParser : List Nat → Nat → Nat

/-- The per-port record after a sequence of registration calls for `port`. -/
def registerAll (port : Nat) :
    Option AppLayerProbingParser → List ProbeRegistration → Option AppLayerProbingParser
  | pp, [] => pp
  | pp, g :: later =>
    registerAll port
      (some (AppLayerRegisterProbingParser pp g.ip_proto port g.al_proto g.min_depth g.max_depth
        g.toserver g.priority g.top g.ProbingParser)) later

/-- The maximum depth across all probes registered for a direction, read off
the registration calls: the largest `max_depth` argument, as a `uint16_t`,
among the calls for that direction; 0 when there is none. -/
def registeredMaxDepth (toserver : Bool) : List ProbeRegistration → Nat
  | [] => 0
  | g :: later =>
    if g.toserver = toserver then max (g.max_depth % 65536) (registeredMaxDepth toserver later)
    else registeredMaxDepth toserver later

/-- Modelled from the spec: the protocol id a probe returns while it has not
resolved a protocol (`ALPROTO_UNKNOWN`, defined outside this header). -/
def ALPROTO_UNKNOWN : Nat := 0

/-- One invocation of a probe function: the element whose `ProbingParser` is
called and the `input_len` it is called with. -/
structure ProbeCall where
  pe : AppLayerProbingParserElement
  input_len : Nat

/-- Modelled from the spec: the walk of one direction's chain by the probing
dispatcher (body absent).  Spec 4.2: the chain is iterated in order, a probe
is invoked only once `input_len` reaches its `min_depth`, and the walk stops
at the first probe that resolves a protocol.  The spec reads two ways on a
probe whose `min_depth` is not reached: the walk waits on it (scenario of
section 8, `wait = true`) or passes over it (section 9, `wait = false`).  The
result is the list of invocations made and the protocol id. -/
def probeChain (wait : Bool) (input : List Nat) :
    List AppLayerProbingParserElement → List ProbeCall × Nat
  | [] => ([], ALPROTO_UNKNOWN)
  | pe :: next =>
    if input.length < pe.min_depth then
      if wait then ([], ALPROTO_UNKNOWN) else probeChain wait input next
    else
      let verdict := pe.ProbingParser input input.length
      if verdict ≠ ALPROTO_UNKNOWN then ([⟨pe, input.length⟩], verdict)
      else
        let r := probeChain wait input next
        (⟨pe, input.length⟩ :: r.1, r.2)

/-- Probing state of one direction of a flow: the resolved protocol id
(`ALPROTO_UNKNOWN` while unresolved) and whether probing was abandoned. -/
structure ProbeState where
  alproto : Nat
  abandoned : Bool
deriving DecidableEq, Repr

/-- The chain of a per-port record for a direction. -/
def directionChain (pp : AppLayerProbingParser) (toserver : Bool) :
    List AppLayerProbingParserElement :=
  if toserver then pp.toserver else pp.toclient

/-- The recorded maximum depth of a per-port record for a direction. -/
def directionMaxDepth (pp : AppLayerProbingParser) (toserver : Bool) : Nat :=
  if toserver then pp.toserver_max_depth else pp.toclient_max_depth

/-- Modelled from the spec: one probing attempt of the dispatcher for a port
and direction (body absent).  Spec 4.2: a resolved protocol is cached and not
probed again; once `input_len` exceeds the direction's recorded maximum depth
without resolution, probing is abandoned permanently; otherwise the chain is
walked. -/
def AppLayerProbe (wait : Bool) (pp : AppLayerProbingParser) (toserver : Bool)
    (st : ProbeState) (input : List Nat) : List ProbeCall × ProbeState :=
  if st.alproto ≠ ALPROTO_UNKNOWN ∨ st.abandoned = true then ([], st)
  else if directionMaxDepth pp toserver < input.length then ([], { st with abandoned := true })
  else
    let r := probeChain wait input (directionChain pp toserver)
    (r.1, { st with alproto := r.2 })

/-- All probe invocations made over a sequence of probing attempts on the
successive inputs of one direction of a flow. -/
def probeRun (wait : Bool) (pp : AppLayerProbingParser) (toserver : Bool) :
    ProbeState → List (List Nat) → List ProbeCall
  | _, [] => []
  | st, input :: later =>
    (AppLayerProbe wait pp toserver st input).1 ++
      probeRun wait pp toserver (AppLayerProbe wait pp toserver st input).2 later

/-- A probe for protocol 7 that resolves when the first input byte is 71. -/
def exampleProbe : List Nat → Nat → Nat := fun input _ =>
  if input.head? = some 71 then 7 else ALPROTO_UNKNOWN

/-- A per-port record for port 80 with one to-server probe of depth window
2 to 8. -/
def exampleRecord : AppLayerProbingParser :=
  ⟨80, 8, 0, [⟨7, 80, APP_LAYER_PROBING_PARSER_PRIORITY_HIGH, 0, 2, 8, exampleProbe⟩], [], NULL⟩

/-! ## Field extraction helpers -/

/-- What a field helper hands back: its return value (1: a field was emitted,
0: incomplete), the result list, the parser state and the value of `*offset`. -/
structure AlpReturn where
  ret : Nat
  output : AppLayerParserResult
  pstate : AppLayerParserState
  offset : Nat
deriving DecidableEq, Repr

/-- Modelled from the spec: the append of one result element to the result
list (body absent).  Spec 4.5: the list is append-only, and an element whose
data was rebuilt from the carry-over buffer is marked as locally allocated. -/
def AlpStoreField (output : AppLayerParserResult) (field_idx : Nat) (data : List Nat)
    (alloc : Bool) : AppLayerParserResult :=
  output ++ [⟨if alloc then ALP_RESULT_ELMT_ALLOC else 0, field_idx, data⟩]

/-- Modelled from the spec: `AlpParseFieldBySize` (prototype in the header, body
absent).  Spec 4.3: the helper consumes exactly `size` bytes; with fewer than
`size` bytes available the new bytes are appended to the carry-over buffer and
the helper reports incomplete; once `size` bytes are accumulated the field is
emitted and the carry-over is cleared.  `offset` advances by the number of
input bytes that went into the field. -/
def AlpParseFieldBySize (output : AppLayerParserResult) (pstate : AppLayerParserState)
    (field_idx size : Nat) (input : List Nat) (offset : Nat) : AlpReturn :=
  if pstate.store.length + input.length < size then
    ⟨0, output, { pstate with store := pstate.store ++ input }, offset⟩
  else
    ⟨1, AlpStoreField output field_idx
          (pstate.store ++ input.take (size - pstate.store.length)) (!pstate.store.isEmpty),
        { pstate with store := [] }, offset + (size - pstate.store.length)⟩

/-- Modelled from the spec: `AlpParseFieldByEOF` (prototype in the header, body
absent).  Spec 4.3: whatever remains is emitted as a single field only when
end-of-input is signalled for this call (`APP_LAYER_PARSER_EOF` in the state's
flags); otherwise the bytes are buffered in the carry-over.  The helper has no
`offset` parameter: the returned offset is the whole input length. -/
def AlpParseFieldByEOF (output : AppLayerParserResult) (pstate : AppLayerParserState)
    (field_idx : Nat) (input : List Nat) : AlpReturn :=
  if pstate.flags &&& APP_LAYER_PARSER_EOF = 0 then
    ⟨0, output, { pstate with store := pstate.store ++ input }, input.length⟩
  else
    ⟨1, AlpStoreField output field_idx (pstate.store ++ input) (!pstate.store.isEmpty),
        { pstate with store := [] }, input.length⟩

/-- The first position at which the byte sequence `delim` occurs in a buffer. -/
def findDelim (delim : List Nat) : List Nat → Option Nat
  | [] => if delim = [] then some 0 else none
  | b :: rest =>
    if delim <+: b :: rest then some 0 else (findDelim delim rest).map (fun i => i + 1)

/-- Modelled from the spec: `AlpParseFieldByDelimiter` (prototype in the header,
body absent).  Spec 4.3: the helper scans the carry-over followed by the new
bytes for the delimiter; unterminated data is buffered in the carry-over; on a
match everything up to, not including, the delimiter is emitted as a field and
`offset` advances past the delimiter.  `delim` / `delim_len` is the list
`delim`. -/
def AlpParseFieldByDelimiter (output : AppLayerParserResult) (pstate : AppLayerParserState)
    (field_idx : Nat) (delim : List Nat) (input : List Nat) (offset : Nat) : AlpReturn :=
  match findDelim delim (pstate.store ++ input) with
  | none => ⟨0, output, { pstate with store := pstate.store ++ input }, offset⟩
  | some len =>
    ⟨1, AlpStoreField output field_idx ((pstate.store ++ input).take len)
          (!pstate.store.isEmpty),
        { pstate with store := [] }, offset + (len + delim.length - pstate.store.length)⟩

/-- The dispatcher's end-of-input signal: `flags |= APP_LAYER_PARSER_EOF`. -/
def signalEOF (pstate : AppLayerParserState) : AppLayerParserState :=
  { pstate with flags := pstate.flags ||| APP_LAYER_PARSER_EOF }

/-- What a caller observes of a helper run: the emitted fields (name index
and contents), the carry-over buffer left in the state, and the input bytes
not consumed. -/
structure StreamOutcome where
  fields : List (Nat × List Nat)
  store : List Nat
  rest : List Nat
deriving DecidableEq, Repr

/-- Observation of one helper call on `input`, with `later` the bytes of the
chunks that were not handed to the helper. -/
def observe (r : AlpReturn) (input later : List Nat) : StreamOutcome :=
  ⟨r.output.map (fun e => (e.name_idx, e.data)), r.pstate.store,
   if r.ret = 1 then input.drop r.offset ++ later else []⟩

/-- Successive calls of a helper on the chunks `c :: cs`, the parser state
carried from call to call, until a field is emitted; `mid` is the call made on
every chunk but the last, `last` the call made on the last chunk. -/
def feedChunks (mid last : AppLayerParserState → List Nat → AlpReturn) :
    AppLayerParserState → List Nat → List (List Nat) → StreamOutcome
  | pstate, c, [] => observe (last pstate c) c []
  | pstate, c, c2 :: cs =>
    if (mid pstate c).ret = 1 then observe (mid pstate c) c (c2 :: cs).flatten
    else feedChunks mid last (mid pstate c).pstate c2 cs

/-- Chunked run of `AlpParseFieldBySize`. -/
def streamBySize (field_idx size : Nat) :
    AppLayerParserState → List Nat → List (List Nat) → StreamOutcome :=
  feedChunks (fun st input => AlpParseFieldBySize [] st field_idx size input 0)
    (fun st input => AlpParseFieldBySize [] st field_idx size input 0)

/-- Chunked run of `AlpParseFieldByDelimiter`. -/
def streamByDelimiter (field_idx : Nat) (delim : List Nat) :
    AppLayerParserState → List Nat → List (List Nat) → StreamOutcome :=
  feedChunks (fun st input => AlpParseFieldByDelimiter [] st field_idx delim input 0)
    (fun st input => AlpParseFieldByDelimiter [] st field_idx delim input 0)

/-- Chunked run of `AlpParseFieldByEOF`, end-of-input signalled on the last
chunk. -/
def streamByEOF (field_idx : Nat) :
    AppLayerParserState → List Nat → List (List Nat) → StreamOutcome :=
  feedChunks (fun st input => AlpParseFieldByEOF [] st field_idx input)
    (fun st input => AlpParseFieldByEOF [] (signalEOF st) field_idx input)

/-- What a parser function hands back: status (1: results populated, 0:
incomplete), the protocol state, the parser state and the result list. -/
structure ParserReturn where
  ret : Nat
  protocol_state : Nat
  pstate : AppLayerParserState
  output : AppLayerParserResult
deriving DecidableEq, Repr

/-- Big-endian value of a byte string. -/
def be32 (bytes : List Nat) : Nat :=
  bytes.foldl (fun acc b => acc * 256 + b) 0

/-- Modelled from the spec: the parser of the scenario's protocol "P" (spec 8),
which reads fields prefixed by a 4-byte length.  With `parse_field = 0` it
reads the length through `AlpParseFieldBySize` and keeps it in the protocol
state; with `parse_field = 1` it reads that many bytes through
`AlpParseFieldBySize` and emits them as the field with name index 1. -/
def lengthPrefixedParser (protocol_state : Nat) (pstate : AppLayerParserState)
    (input : List Nat) : ParserReturn :=
  if pstate.parse_field = 0 then
    let r := AlpParseFieldBySize [] pstate 0 4 input 0
    if r.ret = 0 then ⟨0, protocol_state, r.pstate, []⟩
    else
      let len := be32 ((r.output.map (fun e => e.data)).flatten)
      let b := AlpParseFieldBySize [] { r.pstate with parse_field := 1 } 1 len
        (input.drop r.offset) 0
      if b.ret = 0 then ⟨0, len, b.pstate, []⟩
      else ⟨1, len, { b.pstate with parse_field := 0 }, b.output⟩
  else
    let b := AlpParseFieldBySize [] pstate 1 protocol_state input 0
    if b.ret = 0 then ⟨0, protocol_state, b.pstate, []⟩
    else ⟨1, protocol_state, { b.pstate with parse_field := 0 }, b.output⟩

/-- Successive calls of the scenario's parser on the chunks of a stream, the
protocol state and the parser state carried from call to call; the list holds
what each call returned. -/
def runLengthPrefixedParser :
    Nat → AppLayerParserState → List (List Nat) → List ParserReturn
  | _, _, [] => []
  | protocol_state, pstate, c :: cs =>
    lengthPrefixedParser protocol_state pstate c ::
      runLengthPrefixedParser (lengthPrefixedParser protocol_state pstate c).protocol_state
        (lengthPrefixedParser protocol_state pstate c).pstate cs

/-- A chain of three probe elements for port 80 with priorities HIGH, MEDIUM
and LOW, in that order. -/
def examplePriorityChain : List AppLayerProbingParserElement :=
  [⟨1, 80, APP_LAYER_PROBING_PARSER_PRIORITY_HIGH, 0, 0, 0, fun _ _ => 0⟩,
   ⟨2, 80, APP_LAYER_PROBING_PARSER_PRIORITY_MEDIUM, 0, 0, 0, fun _ _ => 0⟩,
   ⟨3, 80, APP_LAYER_PROBING_PARSER_PRIORITY_LOW, 0, 0, 0, fun _ _ => 0⟩]

/-! ## Example heap -/

/-- A heap with three per-port records at addresses 1, 2, 3, linked
1 → 2 → 3 → NULL, for ports 80, 443, 80. -/
def exampleMemory : Memory := fun a =>
  if a = 1 then some ⟨80, 0, 0, [], [], 2⟩
  else if a = 2 then some ⟨443, 0, 0, [], [], 3⟩
  else if a = 3 then some ⟨80, 0, 0, [], [], 0⟩
  else none

/-! ## Properties of the constants and of `AppLayerGetProbingParsers` -/

theorem exampleMemory_isChain : IsChain exampleMemory 1 [1, 2, 3] := by
  refine ⟨rfl, by decide, ⟨80, 0, 0, [], [], 2⟩, rfl, ?_⟩
  refine ⟨rfl, by decide, ⟨443, 0, 0, [], [], 3⟩, rfl, ?_⟩
  refine ⟨rfl, by decide, ⟨80, 0, 0, [], [], 0⟩, rfl, ?_⟩
  rfl

/-- The loop, on a null-terminated chain and with more fuel than the chain is
long, returns either `NULL` after having seen no matching record, or the first
address of the chain whose record has the requested port. -/
theorem searchLoop_spec (mem : Memory) (port : Nat) :
    ∀ (addrs : List Ptr) (p : Ptr) (fuel : Nat),
      IsChain mem p addrs → addrs.length < fuel →
      ∃ r, searchLoop mem port fuel p = some r ∧
        ((r = NULL ∧ ∀ a ∈ addrs, portAt mem a ≠ some port) ∨
         (r ≠ NULL ∧ ∃ pre post, addrs = pre ++ r :: post ∧
            portAt mem r = some port ∧ IsChain mem r (r :: post) ∧
            ∀ a ∈ pre, portAt mem a ≠ some port)) := by
  intro addrs
  induction addrs with
  | nil =>
    intro p fuel hc hf
    cases fuel with
    | zero => omega
    | succ n =>
      have hp : p = NULL := hc
      refine ⟨p, ?_, Or.inl ⟨hp, ?_⟩⟩
      · simp [searchLoop, hp]
      · intro a ha; cases ha
  | cons a rest ih =>
    intro p fuel hc hf
    obtain ⟨hpa, hne, r, hr, hrest⟩ := hc
    cases fuel with
    | zero => omega
    | succ n =>
      subst hpa
      by_cases hport : r.port = port
      · refine ⟨p, ?_, Or.inr ⟨hne, [], rest, rfl, ?_, ?_, ?_⟩⟩
        · simp [searchLoop, hne, hr, hport]
        · simp [portAt, hr, hport]
        · exact ⟨rfl, hne, r, hr, hrest⟩
        · intro a ha; cases ha
      · have hlen : rest.length < n := by simp at hf; omega
        obtain ⟨q, hq, hcases⟩ := ih r.next n hrest hlen
        refine ⟨q, ?_, ?_⟩
        · simp [searchLoop, hne, hr, hport, hq]
        · have hp_no : portAt mem p ≠ some port := by simp [portAt, hr, hport]
          rcases hcases with ⟨hnull, hall⟩ | ⟨hnn, pre, post, hsplit, hpq, hch, hall⟩
          · refine Or.inl ⟨hnull, ?_⟩
            intro a ha
            rcases List.mem_cons.mp ha with h | h
            · rw [h]; exact hp_no
            · exact hall a h
          · refine Or.inr ⟨hnn, p :: pre, post, by rw [hsplit]; rfl, hpq, hch, ?_⟩
            intro a ha
            rcases List.mem_cons.mp ha with h | h
            · rw [h]; exact hp_no
            · exact hall a h

/-- Extra fuel does not change a result the loop has already produced. -/
theorem searchLoop_mono (mem : Memory) (port : Nat) :
    ∀ (fuel : Nat) (p r : Ptr), searchLoop mem port fuel p = some r →
      ∀ k, searchLoop mem port (fuel + k) p = some r := by
  intro fuel
  induction fuel with
  | zero => intro p r h; simp [searchLoop] at h
  | succ n ih =>
    intro p r h k
    have hk : n + 1 + k = (n + k) + 1 := by omega
    rw [hk]
    simp only [searchLoop] at h ⊢
    by_cases hp : p = NULL
    · simpa [hp] using h
    · simp only [hp, if_false] at h ⊢
      cases hm : mem p with
      | none => simp [hm] at h
      | some rec =>
        simp only [hm] at h ⊢
        by_cases hport : rec.port = port
        · simpa [hport] using h
        · simp only [hport, if_false] at h ⊢
          exact ih rec.next r h k

/-- C1: on every null-terminated chain of per-port records and for every
port, `AppLayerGetProbingParsers` (given more fuel than the chain is long)
returns a pointer `r`; `r` is `NULL` exactly when no record of the chain has
the requested port, and otherwise `r` is the first record in chain order with
that port: every record before it has a different port.  A `NULL` list gives
`NULL` with any fuel. -/
theorem c1_get_probing_parsers_first_match (mem : Memory) (p : Ptr) (addrs : List Ptr)
    (ip_proto port fuel : Nat) (hc : IsChain mem p addrs) (hf : addrs.length < fuel) :
    (∀ fuel0, AppLayerGetProbingParsers mem fuel0 NULL ip_proto port = some NULL) ∧
    ∃ r, AppLayerGetProbingParsers mem fuel p ip_proto port = some r ∧
      (r = NULL ↔ ∀ a ∈ addrs, portAt mem a ≠ some port) ∧
      (r ≠ NULL → ∃ pre post, addrs = pre ++ r :: post ∧ portAt mem r = some port ∧
        ∀ a ∈ pre, portAt mem a ≠ some port) := by
  refine ⟨fun fuel0 => by simp [AppLayerGetProbingParsers], ?_⟩
  obtain ⟨r, hr, hcases⟩ := searchLoop_spec mem port addrs p fuel hc hf
  have hres : AppLayerGetProbingParsers mem fuel p ip_proto port = some r := by
    unfold AppLayerGetProbingParsers
    by_cases hp : p = NULL
    · cases fuel with
      | zero => omega
      | succ n =>
        have : r = NULL := by simpa [searchLoop, hp] using hr.symm
        simp [hp, this]
    · simp [hp, hr]
  refine ⟨r, hres, ?_, ?_⟩
  · rcases hcases with ⟨hnull, hall⟩ | ⟨hnn, pre, post, hsplit, hpq, _, _⟩
    · exact ⟨fun _ => hall, fun _ => hnull⟩
    · constructor
      · intro h; exact absurd h hnn
      · intro hall
        exact absurd hpq (hall r (by rw [hsplit]; simp))
  · intro hnn
    rcases hcases with ⟨hnull, _⟩ | ⟨_, pre, post, hsplit, hpq, _, hall⟩
    · exact absurd hnull hnn
    · exact ⟨pre, post, hsplit, hpq, hall⟩

/-- Witness for C1 on the example heap: looking up port 443 in the chain
1 → 2 → 3 returns the record at address 2. -/
theorem c1_get_probing_parsers_first_match_witness :
    AppLayerGetProbingParsers exampleMemory 4 1 6 443 = some 2 ∧
    ((∀ fuel0, AppLayerGetProbingParsers exampleMemory fuel0 NULL 6 443 = some NULL) ∧
    ∃ r, AppLayerGetProbingParsers exampleMemory 4 1 6 443 = some r ∧
      (r = NULL ↔ ∀ a ∈ [1, 2, 3], portAt exampleMemory a ≠ some 443) ∧
      (r ≠ NULL → ∃ pre post, [1, 2, 3] = pre ++ r :: post ∧
        portAt exampleMemory r = some 443 ∧
        ∀ a ∈ pre, portAt exampleMemory a ≠ some 443)) :=
  ⟨by decide,
   c1_get_probing_parsers_first_match exampleMemory 1 [1, 2, 3] 6 443 4
     exampleMemory_isChain (by decide)⟩

/-- C8: the result of `AppLayerGetProbingParsers` does not depend on its
`ip_proto` argument: two calls that differ only in `ip_proto` return the same
record. -/
theorem c8_get_probing_parsers_ignores_ip_proto (mem : Memory) (fuel : Nat) (p : Ptr)
    (ip_proto1 ip_proto2 port : Nat) :
    AppLayerGetProbingParsers mem fuel p ip_proto1 port =
      AppLayerGetProbingParsers mem fuel p ip_proto2 port := by
  simp [AppLayerGetProbingParsers]

/-- C10: on every finite, null-terminated chain the search loop of
`AppLayerGetProbingParsers` terminates: there is one pointer `r` that the
function returns for every amount of fuel exceeding the chain length; when
`r` is not `NULL` it is a record of the input chain and the chain that starts
at `r` is a suffix of the input chain. -/
theorem c10_get_probing_parsers_terminates (mem : Memory) (p : Ptr) (addrs : List Ptr)
    (ip_proto port : Nat) (hc : IsChain mem p addrs) :
    ∃ r, (∀ fuel, addrs.length < fuel →
            AppLayerGetProbingParsers mem fuel p ip_proto port = some r) ∧
      (r ≠ NULL → r ∈ addrs ∧
        ∃ post, List.IsSuffix (r :: post) addrs ∧ IsChain mem r (r :: post)) := by
  obtain ⟨r, hr, hcases⟩ :=
    searchLoop_spec mem port addrs p (addrs.length + 1) hc (Nat.lt_succ_self _)
  refine ⟨r, ?_, ?_⟩
  · intro fuel hf
    obtain ⟨k, hk⟩ : ∃ k, fuel = addrs.length + 1 + k := ⟨fuel - (addrs.length + 1), by omega⟩
    have hloop : searchLoop mem port fuel p = some r := by
      rw [hk]; exact searchLoop_mono mem port _ p r hr k
    unfold AppLayerGetProbingParsers
    by_cases hp : p = NULL
    · have : r = NULL := by simpa [searchLoop, hp] using hr.symm
      simp [hp, this]
    · simp [hp, hloop]
  · intro hnn
    rcases hcases with ⟨hnull, _⟩ | ⟨_, pre, post, hsplit, _, hch, _⟩
    · exact absurd hnull hnn
    · exact ⟨by rw [hsplit]; simp, post, ⟨pre, hsplit.symm⟩, hch⟩

/-- Witness for C10 on the example heap, chain 1 → 2 → 3, port 80. -/
theorem c10_get_probing_parsers_terminates_witness :
    IsChain exampleMemory 1 [1, 2, 3] ∧
    ∃ r, (∀ fuel, [1, 2, 3].length < fuel →
            AppLayerGetProbingParsers exampleMemory fuel 1 17 80 = some r) ∧
      (r ≠ NULL → r ∈ [1, 2, 3] ∧
        ∃ post, List.IsSuffix (r :: post) [1, 2, 3] ∧ IsChain exampleMemory r (r :: post)) :=
  ⟨exampleMemory_isChain,
   c10_get_probing_parsers_terminates exampleMemory 1 [1, 2, 3] 17 80 exampleMemory_isChain⟩

/-- C7: the three probing priority constants are pairwise distinct, ordered
HIGH < MEDIUM < LOW and fit the 8-bit `priority` field; hence in every element
chain ordered by ascending `priority`, every high-priority element stands
before every medium- and every low-priority one, and every medium-priority
element before every low-priority one. -/
theorem c7_priority_constants_ordered :
    (APP_LAYER_PROBING_PARSER_PRIORITY_HIGH < APP_LAYER_PROBING_PARSER_PRIORITY_MEDIUM ∧
     APP_LAYER_PROBING_PARSER_PRIORITY_MEDIUM < APP_LAYER_PROBING_PARSER_PRIORITY_LOW ∧
     APP_LAYER_PROBING_PARSER_PRIORITY_LOW < 256 ∧
     APP_LAYER_PROBING_PARSER_PRIORITY_HIGH ≠ APP_LAYER_PROBING_PARSER_PRIORITY_MEDIUM ∧
     APP_LAYER_PROBING_PARSER_PRIORITY_MEDIUM ≠ APP_LAYER_PROBING_PARSER_PRIORITY_LOW ∧
     APP_LAYER_PROBING_PARSER_PRIORITY_HIGH ≠ APP_LAYER_PROBING_PARSER_PRIORITY_LOW) ∧
    ∀ (chain : List AppLayerProbingParserElement),
      chain.Pairwise (fun a b => a.priority ≤ b.priority) →
      ∀ (i j : Fin chain.length),
        (((chain.get i).priority = APP_LAYER_PROBING_PARSER_PRIORITY_HIGH ∧
          (chain.get j).priority = APP_LAYER_PROBING_PARSER_PRIORITY_MEDIUM) ∨
         ((chain.get i).priority = APP_LAYER_PROBING_PARSER_PRIORITY_MEDIUM ∧
          (chain.get j).priority = APP_LAYER_PROBING_PARSER_PRIORITY_LOW) ∨
         ((chain.get i).priority = APP_LAYER_PROBING_PARSER_PRIORITY_HIGH ∧
          (chain.get j).priority = APP_LAYER_PROBING_PARSER_PRIORITY_LOW)) →
        i < j := by
  refine ⟨by decide, ?_⟩
  intro chain hsorted i j hprio
  by_contra hij
  have hji : j ≤ i := not_lt.mp hij
  have hle : (chain.get j).priority ≤ (chain.get i).priority := by
    rcases lt_or_eq_of_le hji with h | h
    · exact List.pairwise_iff_get.mp hsorted j i h
    · rw [h]
  simp only [APP_LAYER_PROBING_PARSER_PRIORITY_HIGH, APP_LAYER_PROBING_PARSER_PRIORITY_MEDIUM,
    APP_LAYER_PROBING_PARSER_PRIORITY_LOW] at hprio
  omega

/-- Witness for C7: the example chain with priorities HIGH, MEDIUM, LOW is
ordered by ascending priority, its element 0 is HIGH and its element 1 is
MEDIUM, and index 0 stands before index 1. -/
theorem c7_priority_constants_ordered_witness :
    examplePriorityChain.Pairwise (fun a b => a.priority ≤ b.priority) ∧
    (examplePriorityChain.get ⟨0, by decide⟩).priority =
      APP_LAYER_PROBING_PARSER_PRIORITY_HIGH ∧
    (examplePriorityChain.get ⟨1, by decide⟩).priority =
      APP_LAYER_PROBING_PARSER_PRIORITY_MEDIUM ∧
    ((⟨0, by decide⟩ : Fin examplePriorityChain.length) < ⟨1, by decide⟩) :=
  ⟨by simp [examplePriorityChain, APP_LAYER_PROBING_PARSER_PRIORITY_HIGH,
      APP_LAYER_PROBING_PARSER_PRIORITY_MEDIUM, APP_LAYER_PROBING_PARSER_PRIORITY_LOW],
   rfl, rfl,
   (c7_priority_constants_ordered).2 examplePriorityChain
    (by simp [examplePriorityChain, APP_LAYER_PROBING_PARSER_PRIORITY_HIGH,
          APP_LAYER_PROBING_PARSER_PRIORITY_MEDIUM, APP_LAYER_PROBING_PARSER_PRIORITY_LOW])
    ⟨0, by decide⟩ ⟨1, by decide⟩ (Or.inl ⟨rfl, rfl⟩)⟩

set_option maxRecDepth 100000 in
/-- Setting or clearing one parser flag in a flags byte does not change the
test of another parser flag; checked for all 256 bytes and all pairs. -/
theorem parser_flags_frame :
    ∀ f, f < 256 → ∀ A ∈ parserFlagConstants, ∀ B ∈ parserFlagConstants, A ≠ B →
      (((f ||| A) % 256) &&& B = f &&& B ∧
       ((f &&& (0xFFFFFFFF ^^^ A)) % 256) &&& B = f &&& B) := by
  decide

/-- C9: the five `APP_LAYER_PARSER_*` flag constants are non-zero, each a
single bit, pairwise disjoint and below 256 (they fit the 8-bit `flags`
field); for every flags byte `f` and every two distinct constants `A`, `B`,
setting `A` (`f | A`) or clearing `A` (`f & ~A`, stored back into the byte)
leaves the test of `B` (`f & B`) unchanged. -/
theorem c9_parser_flags_independent :
    (∀ A ∈ parserFlagConstants, A ≠ 0 ∧ A < 256 ∧ ∃ k, k < 8 ∧ A = 2 ^ k) ∧
    (∀ A ∈ parserFlagConstants, ∀ B ∈ parserFlagConstants, A ≠ B → A &&& B = 0) ∧
    (∀ f, f < 256 → ∀ A ∈ parserFlagConstants, ∀ B ∈ parserFlagConstants, A ≠ B →
      (((f ||| A) % 256) &&& B = f &&& B ∧
       ((f &&& (0xFFFFFFFF ^^^ A)) % 256) &&& B = f &&& B)) := by
  refine ⟨?_, ?_, ?_⟩
  · intro A hA
    simp only [parserFlagConstants, List.mem_cons, List.mem_singleton, List.not_mem_nil,
      or_false] at hA
    rcases hA with h | h | h | h | h <;> subst h
    · exact ⟨by decide, by decide, 0, by decide, by decide⟩
    · exact ⟨by decide, by decide, 1, by decide, by decide⟩
    · exact ⟨by decide, by decide, 2, by decide, by decide⟩
    · exact ⟨by decide, by decide, 3, by decide, by decide⟩
    · exact ⟨by decide, by decide, 4, by decide, by decide⟩
  · decide
  · exact parser_flags_frame

/-! ## Transaction cursors -/

/-- C3: every operation on a flow's transaction cursors (state-update callback,
`AppLayerTransactionUpdateInspectId`, `AppLayerTransactionUpdateLoggedId`,
transaction free) preserves `base_id ≤ inspect_id ≤ avail_id` and
`base_id ≤ logged_id ≤ avail_id`, and keeps `avail_id`, hence all four
cursors, within 16 bits; so `base_id ≤ min(inspect_id, logged_id)` afterwards,
and with `avail_id = 5`, `inspect_id = 5`, `logged_id = 3` the cleanup moves
`base_id` to 3 and a second cleanup leaves it there. -/
theorem c3_cursor_invariant_preserved (op : CursorOp) (s : AppLayerParserStateStore)
    (hinv : cursorInvariant s) :
    cursorInvariant (applyCursorOp op s) ∧
    (applyCursorOp op s).base_id ≤
      min (applyCursorOp op s).inspect_id (applyCursorOp op s).logged_id ∧
    (s.avail_id < 65536 → (applyCursorOp op s).avail_id < 65536) ∧
    (AppLayerTransactionsCleanup (cursors 5 3 5 0)).base_id = 3 ∧
    (AppLayerTransactionsCleanup (AppLayerTransactionsCleanup (cursors 5 3 5 0))).base_id = 3 := by
  obtain ⟨h1, h2, h3, h4⟩ := hinv
  have hmod : ∀ n : Nat, n % 65536 < 65536 := fun n => Nat.mod_lt n (by decide)
  have key : cursorInvariant (applyCursorOp op s) ∧
      (s.avail_id < 65536 → (applyCursorOp op s).avail_id < 65536) := by
    cases op with
    | stateUpdate transaction_cnt =>
      have := hmod transaction_cnt
      simp only [applyCursorOp, StateUpdateTransactionId, cursorInvariant]
      split <;> (try dsimp only) <;> omega
    | updateInspectId =>
      simp only [applyCursorOp, AppLayerTransactionUpdateInspectId, cursorInvariant]
      split <;> (try dsimp only) <;> omega
    | updateLoggedId =>
      simp only [applyCursorOp, AppLayerTransactionUpdateLoggedId, cursorInvariant]
      split <;> (try dsimp only) <;> omega
    | transactionFree =>
      simp only [applyCursorOp, AppLayerTransactionsCleanup, cursorInvariant]
      split <;> (try dsimp only) <;> omega
  refine ⟨key.1, ?_, key.2, by decide, by decide⟩
  obtain ⟨k1, _, k3, _⟩ := key.1
  exact le_min k1 k3

/-- Witness for C3: the state-update callback reporting a sixth transaction on
the cursors `avail_id = 5`, `inspect_id = 5`, `logged_id = 3`, `base_id = 0`,
and the callback at `avail_id = 65535`, which leaves the cursors as they
are. -/
theorem c3_cursor_invariant_preserved_witness :
    cursorInvariant (cursors 5 3 5 0) ∧
    (applyCursorOp (.stateUpdate 6) (cursors 5 3 5 0)).avail_id = 6 ∧
    applyCursorOp (.stateUpdate 65536) (cursors 65535 65535 65535 0) =
      cursors 65535 65535 65535 0 ∧
    (cursorInvariant (applyCursorOp (.stateUpdate 6) (cursors 5 3 5 0)) ∧
    (applyCursorOp (.stateUpdate 6) (cursors 5 3 5 0)).base_id ≤
      min (applyCursorOp (.stateUpdate 6) (cursors 5 3 5 0)).inspect_id
        (applyCursorOp (.stateUpdate 6) (cursors 5 3 5 0)).logged_id ∧
    ((cursors 5 3 5 0).avail_id < 65536 →
      (applyCursorOp (.stateUpdate 6) (cursors 5 3 5 0)).avail_id < 65536) ∧
    (AppLayerTransactionsCleanup (cursors 5 3 5 0)).base_id = 3 ∧
    (AppLayerTransactionsCleanup (AppLayerTransactionsCleanup (cursors 5 3 5 0))).base_id = 3) :=
  ⟨by decide, by decide, by decide,
   c3_cursor_invariant_preserved (.stateUpdate 6) (cursors 5 3 5 0) (by decide)⟩

/-- C4: for every cursor state and every operation, none of `base_id`,
`inspect_id`, `logged_id`, `avail_id` decreases; the state-update callback
that reports one more transaction than `avail_id` counts, within 16 bits,
raises `avail_id` by exactly one. -/
theorem c4_cursors_never_decrease (op : CursorOp) (s : AppLayerParserStateStore) :
    s.base_id ≤ (applyCursorOp op s).base_id ∧
    s.inspect_id ≤ (applyCursorOp op s).inspect_id ∧
    s.logged_id ≤ (applyCursorOp op s).logged_id ∧
    s.avail_id ≤ (applyCursorOp op s).avail_id ∧
    (s.avail_id + 1 < 65536 →
      (applyCursorOp (.stateUpdate (s.avail_id + 1)) s).avail_id = s.avail_id + 1) := by
  have hinc : s.avail_id + 1 < 65536 →
      (applyCursorOp (.stateUpdate (s.avail_id + 1)) s).avail_id = s.avail_id + 1 := by
    intro h
    have hm : (s.avail_id + 1) % 65536 = s.avail_id + 1 := Nat.mod_eq_of_lt h
    simp only [applyCursorOp, StateUpdateTransactionId, hm]
    split
    · rfl
    · omega
  cases op with
  | stateUpdate transaction_cnt =>
    simp only [applyCursorOp, StateUpdateTransactionId]
    refine ⟨?_, ?_, ?_, ?_, ?_⟩
    · split <;> (try dsimp only) <;> omega
    · split <;> (try dsimp only) <;> omega
    · split <;> (try dsimp only) <;> omega
    · split <;> (try dsimp only) <;> omega
    · simpa only [applyCursorOp, StateUpdateTransactionId] using hinc
  | updateInspectId =>
    simp only [applyCursorOp, AppLayerTransactionUpdateInspectId]
    refine ⟨?_, ?_, ?_, ?_, ?_⟩
    · split <;> (try dsimp only) <;> omega
    · split <;> (try dsimp only) <;> omega
    · split <;> (try dsimp only) <;> omega
    · split <;> (try dsimp only) <;> omega
    · simpa only [applyCursorOp] using hinc
  | updateLoggedId =>
    simp only [applyCursorOp, AppLayerTransactionUpdateLoggedId]
    refine ⟨?_, ?_, ?_, ?_, ?_⟩
    · split <;> (try dsimp only) <;> omega
    · split <;> (try dsimp only) <;> omega
    · split <;> (try dsimp only) <;> omega
    · split <;> (try dsimp only) <;> omega
    · simpa only [applyCursorOp] using hinc
  | transactionFree =>
    simp only [applyCursorOp, AppLayerTransactionsCleanup]
    refine ⟨?_, ?_, ?_, ?_, ?_⟩
    · split <;> (try dsimp only) <;> omega
    · split <;> (try dsimp only) <;> omega
    · split <;> (try dsimp only) <;> omega
    · split <;> (try dsimp only) <;> omega
    · simpa only [applyCursorOp] using hinc

/-- Witness for C4: the state-update callback at `avail_id = 7` reporting an
eighth transaction, and the callback at `avail_id = 65535`, where the count
read as a `uint16_t` is 0 and `avail_id` stays at 65535. -/
theorem c4_cursors_never_decrease_witness :
    (applyCursorOp (.stateUpdate 65536) (cursors 0 0 65535 0)).avail_id = 65535 ∧
    (cursors 2 1 7 0).avail_id + 1 < 65536 ∧
    ((cursors 2 1 7 0).base_id ≤ (applyCursorOp (.stateUpdate 8) (cursors 2 1 7 0)).base_id ∧
    (cursors 2 1 7 0).inspect_id ≤
      (applyCursorOp (.stateUpdate 8) (cursors 2 1 7 0)).inspect_id ∧
    (cursors 2 1 7 0).logged_id ≤ (applyCursorOp (.stateUpdate 8) (cursors 2 1 7 0)).logged_id ∧
    (cursors 2 1 7 0).avail_id ≤ (applyCursorOp (.stateUpdate 8) (cursors 2 1 7 0)).avail_id ∧
    ((cursors 2 1 7 0).avail_id + 1 < 65536 →
      (applyCursorOp (.stateUpdate ((cursors 2 1 7 0).avail_id + 1)) (cursors 2 1 7 0)).avail_id =
        (cursors 2 1 7 0).avail_id + 1)) :=
  ⟨by decide, by decide, c4_cursors_never_decrease (.stateUpdate 8) (cursors 2 1 7 0)⟩

/-! ## Probing: registration and dispatch -/

/-- Inserting an element into a chain raises the chain maximum to at least the
element's `max_depth` and changes nothing else. -/
theorem chainMaxDepth_insert (new_pe : AppLayerProbingParserElement) :
    ∀ chain : List AppLayerProbingParserElement,
      chainMaxDepth (AppLayerInsertNewProbingParserElement new_pe chain) =
        max (chainMaxDepth chain) new_pe.max_depth := by
  intro chain
  induction chain with
  | nil => simp [AppLayerInsertNewProbingParserElement, chainMaxDepth]
  | cons pe next ih =>
    unfold AppLayerInsertNewProbingParserElement
    split
    · simp only [chainMaxDepth, List.foldr_cons]
      omega
    · have ih2 := ih
      simp only [chainMaxDepth] at ih2
      simp only [chainMaxDepth, List.foldr_cons, ih2]
      omega

/-- Every element of a chain after an insertion is the new element or was in
the chain before. -/
theorem mem_insert (new_pe : AppLayerProbingParserElement) :
    ∀ (chain : List AppLayerProbingParserElement) (pe : AppLayerProbingParserElement),
      pe ∈ AppLayerInsertNewProbingParserElement new_pe chain → pe = new_pe ∨ pe ∈ chain := by
  intro chain
  induction chain with
  | nil =>
    intro pe h
    simp only [AppLayerInsertNewProbingParserElement, List.mem_singleton] at h
    exact Or.inl h
  | cons hd next ih =>
    intro pe h
    unfold AppLayerInsertNewProbingParserElement at h
    split at h
    · rcases List.mem_cons.mp h with h1 | h1
      · exact Or.inl h1
      · exact Or.inr h1
    · rcases List.mem_cons.mp h with h1 | h1
      · exact Or.inr (List.mem_cons.mpr (Or.inl h1))
      · rcases ih pe h1 with h2 | h2
        · exact Or.inl h2
        · exact Or.inr (List.mem_cons.mpr (Or.inr h2))

theorem register_invariant (pp : Option AppLayerProbingParser)
    (hpp : ∀ r, pp = some r → registrationInvariant r) (port : Nat) (g : ProbeRegistration) :
    registrationInvariant (AppLayerRegisterProbingParser pp g.ip_proto port g.al_proto
      g.min_depth g.max_depth g.toserver g.priority g.top g.ProbingParser) := by
  have hbase : registrationInvariant (pp.getD ⟨port % 65536, 0, 0, [], [], NULL⟩) := by
    cases pp with
    | none =>
      refine ⟨⟨rfl, rfl⟩, ?_⟩
      intro pe hpe
      simp at hpe
    | some r => exact hpp r rfl
  obtain ⟨⟨hs, hc⟩, hall⟩ := hbase
  have hlt : g.max_depth % 65536 < 65536 := Nat.mod_lt _ (by decide)
  unfold AppLayerRegisterProbingParser
  cases hdir : g.toserver with
  | true =>
    simp only [if_true]
    refine ⟨⟨?_, hc⟩, ?_⟩
    · simp only [chainMaxDepth_insert, hs]
    · intro pe hpe
      rcases List.mem_append.mp hpe with h | h
      · rcases mem_insert _ _ _ h with h2 | h2
        · rw [h2]; exact hlt
        · exact hall pe (List.mem_append.mpr (Or.inl h2))
      · exact hall pe (List.mem_append.mpr (Or.inr h))
  | false =>
    simp only [Bool.false_eq_true, if_false]
    refine ⟨⟨hs, ?_⟩, ?_⟩
    · simp only [chainMaxDepth_insert, hc]
    · intro pe hpe
      rcases List.mem_append.mp hpe with h | h
      · exact hall pe (List.mem_append.mpr (Or.inl h))
      · rcases mem_insert _ _ _ h with h2 | h2
        · rw [h2]; exact hlt
        · exact hall pe (List.mem_append.mpr (Or.inr h2))

/-- The recorded maxima after one registration. -/
theorem register_max_depth (pp : Option AppLayerProbingParser) (port : Nat)
    (g : ProbeRegistration) (dir : Bool) :
    directionMaxDepth (AppLayerRegisterProbingParser pp g.ip_proto port g.al_proto
      g.min_depth g.max_depth g.toserver g.priority g.top g.ProbingParser) dir =
    if g.toserver = dir then
      max (directionMaxDepth (pp.getD ⟨port % 65536, 0, 0, [], [], NULL⟩) dir)
        (g.max_depth % 65536)
    else directionMaxDepth (pp.getD ⟨port % 65536, 0, 0, [], [], NULL⟩) dir := by
  unfold AppLayerRegisterProbingParser
  cases g.toserver <;> cases dir <;> simp [directionMaxDepth]

theorem registerAll_spec (port : Nat) :
    ∀ (regs : List ProbeRegistration) (pp : Option AppLayerProbingParser)
      (g : ProbeRegistration),
      (∀ r, pp = some r → registrationInvariant r) →
      ∃ r, registerAll port pp (g :: regs) = some r ∧ registrationInvariant r ∧
        ∀ dir, directionMaxDepth r dir =
          max (directionMaxDepth (pp.getD ⟨port % 65536, 0, 0, [], [], NULL⟩) dir)
            (registeredMaxDepth dir (g :: regs)) := by
  intro regs
  induction regs with
  | nil =>
    intro pp g hpp
    refine ⟨_, rfl, register_invariant pp hpp port g, ?_⟩
    intro dir
    rw [register_max_depth]
    simp only [registeredMaxDepth]
    split <;> simp
  | cons g2 later ih =>
    intro pp g hpp
    have hinv := register_invariant pp hpp port g
    obtain ⟨r, hr, hrinv, hmax⟩ := ih (some (AppLayerRegisterProbingParser pp g.ip_proto port
      g.al_proto g.min_depth g.max_depth g.toserver g.priority g.top g.ProbingParser)) g2
      (by intro r0 h0; cases h0; exact hinv)
    refine ⟨r, hr, hrinv, ?_⟩
    intro dir
    rw [hmax dir]
    simp only [Option.getD_some]
    rw [register_max_depth]
    conv_rhs => rw [registeredMaxDepth]
    split
    · rw [max_assoc]
    · rfl

/-- C6: after any non-empty sequence of registration calls for a port, the
per-port record's `toserver_max_depth` (resp. `toclient_max_depth`) equals the
maximum of the `max_depth` values of the elements in its to-server (resp.
to-client) chain, and equals the largest `max_depth` registered for that
direction.  This holds for every `max_depth` an element comes to hold: the
registration parameter is a `uint16_t`, so every element's `max_depth` is
below 65536 and the maximum fits the 16-bit per-port field. -/
theorem c6_recorded_max_depth (port : Nat) (g : ProbeRegistration)
    (later : List ProbeRegistration) :
    ∃ r, registerAll port none (g :: later) = some r ∧
      r.toserver_max_depth = chainMaxDepth r.toserver ∧
      r.toclient_max_depth = chainMaxDepth r.toclient ∧
      r.toserver_max_depth = registeredMaxDepth true (g :: later) ∧
      r.toclient_max_depth = registeredMaxDepth false (g :: later) ∧
      r.toserver_max_depth < 65536 ∧ r.toclient_max_depth < 65536 ∧
      ∀ pe ∈ r.toserver ++ r.toclient, pe.max_depth < 65536 := by
  obtain ⟨r, hr, ⟨⟨hs, hc⟩, hall⟩, hmax⟩ :=
    registerAll_spec port later none g (by intro r h; cases h)
  have hts := hmax true
  have htc := hmax false
  simp only [directionMaxDepth, Option.getD_none, if_true, Bool.false_eq_true, if_false,
    Nat.zero_max] at hts htc
  have hbound : ∀ chain : List AppLayerProbingParserElement,
      (∀ pe ∈ chain, pe.max_depth < 65536) → chainMaxDepth chain < 65536 := by
    intro chain
    induction chain with
    | nil => intro _; simp [chainMaxDepth]
    | cons pe next ih =>
      intro h
      have h1 := h pe (List.mem_cons_self _ _)
      have h2 := ih (fun q hq => h q (List.mem_cons_of_mem _ hq))
      simp only [chainMaxDepth, List.foldr_cons] at h2 ⊢
      omega
  refine ⟨r, hr, hs, hc, hts, htc, ?_, ?_, hall⟩
  · rw [hs]; exact hbound _ (fun pe hpe => hall pe (List.mem_append.mpr (Or.inl hpe)))
  · rw [hc]; exact hbound _ (fun pe hpe => hall pe (List.mem_append.mpr (Or.inr hpe)))

/-- Every invocation made by a walk of a chain is of an element of the chain,
with the full input length, and that length has reached the element's
`min_depth`. -/
theorem probeChain_calls (wait : Bool) (input : List Nat) :
    ∀ (chain : List AppLayerProbingParserElement) (c : ProbeCall),
      c ∈ (probeChain wait input chain).1 →
      c.pe ∈ chain ∧ c.input_len = input.length ∧ c.pe.min_depth ≤ c.input_len := by
  intro chain
  induction chain with
  | nil => intro c hc; simp [probeChain] at hc
  | cons pe next ih =>
    intro c hc
    unfold probeChain at hc
    split at hc
    · split at hc
      · simp at hc
      · obtain ⟨h1, h2, h3⟩ := ih c hc
        exact ⟨List.mem_cons_of_mem _ h1, h2, h3⟩
    · rename_i hmin
      have hmin2 : pe.min_depth ≤ input.length := not_lt.mp hmin
      simp only at hc
      split at hc
      · rw [List.mem_singleton] at hc
        subst hc
        exact ⟨List.mem_cons_self _ _, rfl, hmin2⟩
      · rcases List.mem_cons.mp hc with h | h
        · subst h
          exact ⟨List.mem_cons_self _ _, rfl, hmin2⟩
        · obtain ⟨h1, h2, h3⟩ := ih c h
          exact ⟨List.mem_cons_of_mem _ h1, h2, h3⟩

/-- Once probing is abandoned, no probe is invoked on any later input. -/
theorem probeRun_abandoned (wait : Bool) (pp : AppLayerProbingParser) (toserver : Bool) :
    ∀ (inputs : List (List Nat)) (st : ProbeState), st.abandoned = true →
      probeRun wait pp toserver st inputs = [] := by
  intro inputs
  induction inputs with
  | nil => intro st _; rfl
  | cons input later ih =>
    intro st hst
    have h : AppLayerProbe wait pp toserver st input = ([], st) := by
      simp [AppLayerProbe, hst]
    simp only [probeRun, h, List.nil_append]
    exact ih st hst

theorem probeRun_calls (wait : Bool) (pp : AppLayerProbingParser) (toserver : Bool) :
    ∀ (inputs : List (List Nat)) (st : ProbeState) (c : ProbeCall),
      c ∈ probeRun wait pp toserver st inputs →
      c.pe ∈ directionChain pp toserver ∧ c.pe.min_depth ≤ c.input_len ∧
        c.input_len ≤ directionMaxDepth pp toserver := by
  intro inputs
  induction inputs with
  | nil => intro st c hc; simp [probeRun] at hc
  | cons input later ih =>
    intro st c hc
    simp only [probeRun] at hc
    rcases List.mem_append.mp hc with h | h
    · unfold AppLayerProbe at h
      split at h
      · simp at h
      · split at h
        · simp at h
        · rename_i hmax
          obtain ⟨h1, h2, h3⟩ := probeChain_calls wait input _ c h
          exact ⟨h1, h3, by rw [h2]; exact not_lt.mp hmax⟩
    · exact ih _ c h

/-- C5: over any sequence of probing attempts for a port and direction, every
invocation of a probe element's `ProbingParser` is made with `input_len` at
least that element's `min_depth` and at most the direction's recorded maximum
depth; and once an attempt is made with `input_len` above that maximum while
no protocol is resolved, no probe is invoked on any later input. -/
theorem c5_probe_depth_window (wait : Bool) (pp : AppLayerProbingParser) (toserver : Bool)
    (st : ProbeState) (inputs : List (List Nat)) :
    (∀ c ∈ probeRun wait pp toserver st inputs,
      c.pe ∈ directionChain pp toserver ∧ c.pe.min_depth ≤ c.input_len ∧
        c.input_len ≤ directionMaxDepth pp toserver) ∧
    (∀ (input : List Nat) (later : List (List Nat)),
      st.alproto = ALPROTO_UNKNOWN → directionMaxDepth pp toserver < input.length →
      (AppLayerProbe wait pp toserver st input).1 = [] ∧
      probeRun wait pp toserver (AppLayerProbe wait pp toserver st input).2 later = []) := by
  refine ⟨fun c hc => probeRun_calls wait pp toserver inputs st c hc, ?_⟩
  intro input later hun hlen
  by_cases hab : st.abandoned = true
  · have h : AppLayerProbe wait pp toserver st input = ([], st) := by
      simp [AppLayerProbe, hab]
    rw [h]
    exact ⟨rfl, probeRun_abandoned wait pp toserver later st hab⟩
  · have h : AppLayerProbe wait pp toserver st input = ([], { st with abandoned := true }) := by
      simp [AppLayerProbe, hun, hab, hlen]
    rw [h]
    exact ⟨rfl, probeRun_abandoned wait pp toserver later _ rfl⟩

/-- Witness for C5 on the example record: with 1 byte the probe (window 2 to 8)
is not invoked, with 3 bytes it is invoked once with `input_len = 3`, and an
unresolved attempt with 9 bytes ends probing for the later input. -/
theorem c5_probe_depth_window_witness :
    (probeRun true exampleRecord true ⟨ALPROTO_UNKNOWN, false⟩ [[71]]).length = 0 ∧
    (probeRun true exampleRecord true ⟨ALPROTO_UNKNOWN, false⟩ [[71], [71, 69, 84]]).map
      (fun c => (c.pe.min_depth, c.input_len)) = [(2, 3)] ∧
    (probeRun true exampleRecord true ⟨ALPROTO_UNKNOWN, false⟩
      [[1, 2, 3, 4, 5, 6, 7, 8, 9], [71, 69, 84]]).length = 0 ∧
    ((∀ c ∈ probeRun true exampleRecord true ⟨ALPROTO_UNKNOWN, false⟩ [[71], [71, 69, 84]],
      c.pe ∈ directionChain exampleRecord true ∧ c.pe.min_depth ≤ c.input_len ∧
        c.input_len ≤ directionMaxDepth exampleRecord true) ∧
    (∀ (input : List Nat) (later : List (List Nat)),
      (⟨ALPROTO_UNKNOWN, false⟩ : ProbeState).alproto = ALPROTO_UNKNOWN →
      directionMaxDepth exampleRecord true < input.length →
      (AppLayerProbe true exampleRecord true ⟨ALPROTO_UNKNOWN, false⟩ input).1 = [] ∧
      probeRun true exampleRecord true
        (AppLayerProbe true exampleRecord true ⟨ALPROTO_UNKNOWN, false⟩ input).2 later = [])) :=
  ⟨by decide, by decide, by decide,
   c5_probe_depth_window true exampleRecord true ⟨ALPROTO_UNKNOWN, false⟩ [[71], [71, 69, 84]]⟩

/-! ## Field extraction helpers -/

/-- A position found by `findDelim` is one where the delimiter fits and
occurs. -/
theorem findDelim_bound (delim : List Nat) :
    ∀ (buf : List Nat) (i : Nat), findDelim delim buf = some i →
      i + delim.length ≤ buf.length ∧ delim <+: buf.drop i := by
  intro buf
  induction buf with
  | nil =>
    intro i h
    simp only [findDelim] at h
    split at h
    · rename_i hd
      cases h
      subst hd
      exact ⟨by simp, List.nil_prefix⟩
    · cases h
  | cons b rest ih =>
    intro i h
    simp only [findDelim] at h
    split at h
    · rename_i hp
      cases h
      exact ⟨by simpa using hp.length_le, by simpa using hp⟩
    · cases hf : findDelim delim rest with
      | none => simp [hf] at h
      | some j =>
        simp only [hf, Option.map_some', Option.some.injEq] at h
        subst h
        obtain ⟨h1, h2⟩ := ih j hf
        exact ⟨by simp only [List.length_cons]; omega, by simpa using h2⟩

/-- The first occurrence found in a buffer is still the first occurrence when
more bytes follow. -/
theorem findDelim_append (delim : List Nat) (tail : List Nat) :
    ∀ (buf : List Nat) (i : Nat), findDelim delim buf = some i →
      findDelim delim (buf ++ tail) = some i := by
  intro buf
  induction buf with
  | nil =>
    intro i h
    simp only [findDelim] at h
    split at h
    · rename_i hd
      cases h
      subst hd
      cases tail with
      | nil => simp [findDelim]
      | cons t ts => simp [findDelim, List.nil_prefix]
    · cases h
  | cons b rest ih =>
    intro i h
    simp only [findDelim] at h
    split at h
    · rename_i hp
      cases h
      have hp2 : delim <+: b :: (rest ++ tail) :=
        hp.trans (List.prefix_append (b :: rest) tail)
      simp [findDelim, hp2]
    · rename_i hnp
      cases hf : findDelim delim rest with
      | none => simp [hf] at h
      | some j =>
        simp only [hf, Option.map_some', Option.some.injEq] at h
        subst h
        have hlen := (findDelim_bound delim rest j hf).1
        have hnp2 : ¬ delim <+: b :: (rest ++ tail) := by
          intro hp2
          apply hnp
          exact List.prefix_of_prefix_length_le hp2 (List.prefix_append (b :: rest) tail)
            (by simp only [List.length_cons]; omega)
        simp [findDelim, hnp2, ih j hf]

/-- An occurrence that appears only after more bytes arrived ends beyond the
bytes seen before. -/
theorem findDelim_append_none (delim : List Nat) (tail : List Nat) :
    ∀ (buf : List Nat) (i : Nat), findDelim delim buf = none →
      findDelim delim (buf ++ tail) = some i → buf.length < i + delim.length := by
  intro buf
  induction buf with
  | nil =>
    intro i hn _
    simp only [findDelim] at hn
    split at hn
    · cases hn
    · rename_i hd
      have : 0 < delim.length := List.length_pos.mpr hd
      simp only [List.length_nil]
      omega
  | cons b rest ih =>
    intro i hn hs
    simp only [findDelim] at hn
    split at hn
    · cases hn
    · rename_i hnp
      have hrest : findDelim delim rest = none := by
        cases hf : findDelim delim rest with
        | none => rfl
        | some j => simp [hf] at hn
      have hs2 : findDelim delim (b :: (rest ++ tail)) = some i := hs
      simp only [findDelim] at hs2
      split at hs2
      · rename_i hp2
        cases hs2
        by_contra hge
        apply hnp
        exact List.prefix_of_prefix_length_le hp2 (List.prefix_append (b :: rest) tail)
          (by omega)
      · cases hf : findDelim delim (rest ++ tail) with
        | none => simp [hf] at hs2
        | some j =>
          simp only [hf, Option.map_some', Option.some.injEq] at hs2
          subst hs2
          have := ih j hrest hf
          simp only [List.length_cons]
          omega

/-- A buffer in which the delimiter was found is the field, the delimiter and
the bytes after it. -/
theorem findDelim_split (delim buf : List Nat) (i : Nat) (h : findDelim delim buf = some i) :
    buf = buf.take i ++ delim ++ buf.drop (i + delim.length) := by
  obtain ⟨_, t, ht⟩ := findDelim_bound delim buf i h
  have hdrop : buf.drop (i + delim.length) = t := by
    rw [← List.drop_drop, ← ht]
    simp
  rw [hdrop, List.append_assoc, ht, List.take_append_drop]

/-- Setting the end-of-input flag makes its test succeed. -/
theorem signalEOF_flag (pstate : AppLayerParserState) :
    (signalEOF pstate).flags &&& APP_LAYER_PARSER_EOF ≠ 0 := by
  have h : (pstate.flags ||| APP_LAYER_PARSER_EOF) &&& APP_LAYER_PARSER_EOF =
      APP_LAYER_PARSER_EOF := by
    apply Nat.eq_of_testBit_eq
    intro i
    simp only [Nat.testBit_and, Nat.testBit_or]
    cases pstate.flags.testBit i <;> cases APP_LAYER_PARSER_EOF.testBit i <;> rfl
  simp only [signalEOF, h]
  decide

/-- Chunked feeding agrees with one call on the concatenation, for any helper
whose call on a chunk either emits what the call on the longer buffer emits,
or leaves a state from which the remaining bytes give that same result. -/
theorem feedChunks_eq (mid last : AppLayerParserState → List Nat → AlpReturn)
    (P : AppLayerParserState → Prop)
    (hP : ∀ st c, P st → (mid st c).ret ≠ 1 → P (mid st c).pstate)
    (hA : ∀ st c t, P st → (mid st c).ret = 1 →
      observe (mid st c) c t = observe (last st (c ++ t)) (c ++ t) [])
    (hB : ∀ st c t, P st → (mid st c).ret ≠ 1 →
      observe (last (mid st c).pstate t) t [] = observe (last st (c ++ t)) (c ++ t) []) :
    ∀ (cs : List (List Nat)) (st : AppLayerParserState) (c : List Nat), P st →
      feedChunks mid last st c cs =
        observe (last st (c :: cs).flatten) (c :: cs).flatten [] := by
  intro cs
  induction cs with
  | nil => intro st c _; simp [feedChunks]
  | cons c2 cs ih =>
    intro st c hst
    rw [List.flatten_cons]
    by_cases hret : (mid st c).ret = 1
    · simp only [feedChunks, hret, if_true]
      exact hA st c _ hst hret
    · simp only [feedChunks, hret, if_false]
      rw [ih _ c2 (hP st c hst hret)]
      exact hB st c _ hst hret

theorem bySize_lt (output : AppLayerParserResult) (st : AppLayerParserState)
    (field_idx size : Nat) (input : List Nat) (offset : Nat)
    (h : st.store.length + input.length < size) :
    AlpParseFieldBySize output st field_idx size input offset =
      ⟨0, output, { st with store := st.store ++ input }, offset⟩ :=
  if_pos h

theorem bySize_ge (output : AppLayerParserResult) (st : AppLayerParserState)
    (field_idx size : Nat) (input : List Nat) (offset : Nat)
    (h : ¬ st.store.length + input.length < size) :
    AlpParseFieldBySize output st field_idx size input offset =
      ⟨1, AlpStoreField output field_idx
            (st.store ++ input.take (size - st.store.length)) (!st.store.isEmpty),
          { st with store := [] }, offset + (size - st.store.length)⟩ :=
  if_neg h

theorem bySize_emit (field_idx size : Nat) (st : AppLayerParserState) (c t : List Nat)
    (h : (AlpParseFieldBySize [] st field_idx size c 0).ret = 1) :
    observe (AlpParseFieldBySize [] st field_idx size c 0) c t =
      observe (AlpParseFieldBySize [] st field_idx size (c ++ t) 0) (c ++ t) [] := by
  by_cases h1 : st.store.length + c.length < size
  · rw [bySize_lt _ _ _ _ _ _ h1] at h
    cases h
  · have h2 : ¬ st.store.length + (c ++ t).length < size := by
      simp only [List.length_append]; omega
    have h3 : size - st.store.length ≤ c.length := by omega
    rw [bySize_ge _ _ _ _ _ _ h1, bySize_ge _ _ _ _ _ _ h2]
    simp only [observe, AlpStoreField, List.nil_append, List.map_cons,
      List.map_nil, if_true, Nat.zero_add, List.append_nil,
      List.take_append_of_le_length h3, List.drop_append_of_le_length h3]

theorem bySize_carry (field_idx size : Nat) (st : AppLayerParserState) (c t : List Nat)
    (h : (AlpParseFieldBySize [] st field_idx size c 0).ret ≠ 1) :
    observe (AlpParseFieldBySize [] (AlpParseFieldBySize [] st field_idx size c 0).pstate
        field_idx size t 0) t [] =
      observe (AlpParseFieldBySize [] st field_idx size (c ++ t) 0) (c ++ t) [] := by
  by_cases h1 : st.store.length + c.length < size
  · rw [bySize_lt _ _ _ _ _ _ h1]
    by_cases h2 : st.store.length + (c ++ t).length < size
    · have h3 : (st.store ++ c).length + t.length < size := by
        simp only [List.length_append] at h2 ⊢; omega
      rw [bySize_lt _ _ _ _ _ _ h2,
        bySize_lt [] ⟨st.flags, st.curParser, st.store ++ c, st.parse_field⟩ _ _ _ _ h3]
      simp [observe]
    · have h3 : ¬ (st.store ++ c).length + t.length < size := by
        simp only [List.length_append] at h2 ⊢; omega
      simp only [List.length_append] at h2
      have h4 : c.length ≤ size - st.store.length := by omega
      have h5 : size - st.store.length - c.length = size - (st.store ++ c).length := by
        simp only [List.length_append]; omega
      rw [bySize_ge [] st _ _ (c ++ t) _ (by simp only [List.length_append]; exact h2),
        bySize_ge [] ⟨st.flags, st.curParser, st.store ++ c, st.parse_field⟩ _ _ _ _ h3]
      simp only [observe, AlpStoreField, List.nil_append, List.map_cons,
        List.map_nil, if_true, Nat.zero_add, List.append_nil,
        List.take_append_eq_append_take, List.drop_append_eq_append_drop,
        List.take_of_length_le h4, List.drop_eq_nil_of_le h4, h5, List.append_assoc]
  · rw [bySize_ge _ _ _ _ _ _ h1] at h
    exact absurd rfl h

theorem byDelimiter_none (output : AppLayerParserResult) (st : AppLayerParserState)
    (field_idx : Nat) (delim input : List Nat) (offset : Nat)
    (h : findDelim delim (st.store ++ input) = none) :
    AlpParseFieldByDelimiter output st field_idx delim input offset =
      ⟨0, output, { st with store := st.store ++ input }, offset⟩ := by
  simp only [AlpParseFieldByDelimiter, h]

theorem byDelimiter_some (output : AppLayerParserResult) (st : AppLayerParserState)
    (field_idx : Nat) (delim input : List Nat) (offset len : Nat)
    (h : findDelim delim (st.store ++ input) = some len) :
    AlpParseFieldByDelimiter output st field_idx delim input offset =
      ⟨1, AlpStoreField output field_idx ((st.store ++ input).take len) (!st.store.isEmpty),
          { st with store := [] }, offset + (len + delim.length - st.store.length)⟩ := by
  simp only [AlpParseFieldByDelimiter, h]

theorem byDelimiter_emit (field_idx : Nat) (delim : List Nat) (st : AppLayerParserState)
    (c t : List Nat)
    (h : (AlpParseFieldByDelimiter [] st field_idx delim c 0).ret = 1) :
    observe (AlpParseFieldByDelimiter [] st field_idx delim c 0) c t =
      observe (AlpParseFieldByDelimiter [] st field_idx delim (c ++ t) 0) (c ++ t) [] := by
  cases hf : findDelim delim (st.store ++ c) with
  | none =>
    rw [byDelimiter_none _ _ _ _ _ _ hf] at h
    cases h
  | some i =>
    have hf2 : findDelim delim (st.store ++ (c ++ t)) = some i := by
      rw [← List.append_assoc]; exact findDelim_append delim t _ i hf
    have hb := (findDelim_bound delim _ i hf).1
    simp only [List.length_append] at hb
    have h3 : i + delim.length - st.store.length ≤ c.length := by omega
    have h4 : i ≤ (st.store ++ c).length := by simp only [List.length_append]; omega
    rw [byDelimiter_some _ _ _ _ _ _ _ hf, byDelimiter_some _ _ _ _ _ _ _ hf2]
    simp only [observe, AlpStoreField, List.nil_append, List.map_cons,
      List.map_nil, if_true, Nat.zero_add, List.append_nil,
      List.drop_append_of_le_length h3]
    rw [← List.append_assoc, List.take_append_of_le_length h4]

theorem byDelimiter_carry (field_idx : Nat) (delim : List Nat) (st : AppLayerParserState)
    (c t : List Nat)
    (h : (AlpParseFieldByDelimiter [] st field_idx delim c 0).ret ≠ 1) :
    observe (AlpParseFieldByDelimiter [] (AlpParseFieldByDelimiter [] st field_idx delim c 0).pstate
        field_idx delim t 0) t [] =
      observe (AlpParseFieldByDelimiter [] st field_idx delim (c ++ t) 0) (c ++ t) [] := by
  cases hf : findDelim delim (st.store ++ c) with
  | some i =>
    rw [byDelimiter_some _ _ _ _ _ _ _ hf] at h
    exact absurd rfl h
  | none =>
    rw [byDelimiter_none _ _ _ _ _ _ hf]
    cases hf2 : findDelim delim (st.store ++ c ++ t) with
    | none =>
      rw [byDelimiter_none [] st _ _ (c ++ t) _ (by rw [← List.append_assoc]; exact hf2),
        byDelimiter_none [] ⟨st.flags, st.curParser, st.store ++ c, st.parse_field⟩ _ _ _ _ hf2]
      simp [observe]
    | some i =>
      have hgt := findDelim_append_none delim t _ i hf hf2
      simp only [List.length_append] at hgt
      have h4 : c.length ≤ i + delim.length - st.store.length := by omega
      have h5 : i + delim.length - st.store.length - c.length =
          i + delim.length - (st.store ++ c).length := by
        simp only [List.length_append]; omega
      rw [byDelimiter_some [] st _ _ (c ++ t) _ _ (by rw [← List.append_assoc]; exact hf2),
        byDelimiter_some [] ⟨st.flags, st.curParser, st.store ++ c, st.parse_field⟩ _ _ _ _ _ hf2]
      simp only [observe, AlpStoreField, List.nil_append, List.map_cons,
        List.map_nil, if_true, Nat.zero_add, List.append_nil,
        List.drop_append_eq_append_drop, List.drop_eq_nil_of_le h4, h5, List.append_assoc]

theorem byEOF_clear (output : AppLayerParserResult) (st : AppLayerParserState)
    (field_idx : Nat) (input : List Nat) (h : st.flags &&& APP_LAYER_PARSER_EOF = 0) :
    AlpParseFieldByEOF output st field_idx input =
      ⟨0, output, { st with store := st.store ++ input }, input.length⟩ :=
  if_pos h

theorem byEOF_set (output : AppLayerParserResult) (st : AppLayerParserState)
    (field_idx : Nat) (input : List Nat) (h : st.flags &&& APP_LAYER_PARSER_EOF ≠ 0) :
    AlpParseFieldByEOF output st field_idx input =
      ⟨1, AlpStoreField output field_idx (st.store ++ input) (!st.store.isEmpty),
          { st with store := [] }, input.length⟩ :=
  if_neg h

theorem byEOF_carry (field_idx : Nat) (st : AppLayerParserState) (c t : List Nat)
    (hst : st.flags &&& APP_LAYER_PARSER_EOF = 0) :
    observe (AlpParseFieldByEOF [] (signalEOF (AlpParseFieldByEOF [] st field_idx c).pstate)
        field_idx t) t [] =
      observe (AlpParseFieldByEOF [] (signalEOF st) field_idx (c ++ t)) (c ++ t) [] := by
  rw [byEOF_clear _ _ _ _ hst, byEOF_set _ _ _ _ (signalEOF_flag _),
    byEOF_set _ _ _ _ (signalEOF_flag _)]
  simp [observe, AlpStoreField, signalEOF]

theorem streamBySize_eq (field_idx size : Nat) (pstate : AppLayerParserState)
    (c : List Nat) (cs : List (List Nat)) :
    streamBySize field_idx size pstate c cs =
      streamBySize field_idx size pstate (c :: cs).flatten [] :=
  feedChunks_eq _ _ (fun _ => True) (fun _ _ _ _ => trivial)
    (fun st c t _ h => bySize_emit field_idx size st c t h)
    (fun st c t _ h => bySize_carry field_idx size st c t h) cs pstate c trivial

theorem streamByDelimiter_eq (field_idx : Nat) (delim : List Nat)
    (pstate : AppLayerParserState) (c : List Nat) (cs : List (List Nat)) :
    streamByDelimiter field_idx delim pstate c cs =
      streamByDelimiter field_idx delim pstate (c :: cs).flatten [] :=
  feedChunks_eq _ _ (fun _ => True) (fun _ _ _ _ => trivial)
    (fun st c t _ h => byDelimiter_emit field_idx delim st c t h)
    (fun st c t _ h => byDelimiter_carry field_idx delim st c t h) cs pstate c trivial

theorem streamByEOF_eq (field_idx : Nat) (pstate : AppLayerParserState)
    (c : List Nat) (cs : List (List Nat))
    (hflag : pstate.flags &&& APP_LAYER_PARSER_EOF = 0) :
    streamByEOF field_idx pstate c cs = streamByEOF field_idx pstate (c :: cs).flatten [] :=
  feedChunks_eq _ _ (fun st => st.flags &&& APP_LAYER_PARSER_EOF = 0)
    (fun st c hst _ => by rw [byEOF_clear _ _ _ _ hst]; exact hst)
    (fun st c t hst h => by rw [byEOF_clear _ _ _ _ hst] at h; cases h)
    (fun st c t hst _ => byEOF_carry field_idx st c t hst) cs pstate c hflag

/-- C2: for every byte sequence cut into chunks `c :: cs` (empty chunks
included) and fed in successive calls with the parser state carried along,
`AlpParseFieldBySize`, `AlpParseFieldByDelimiter` and `AlpParseFieldByEOF` give
the same observation (emitted field, carry-over, unconsumed bytes) as one call
over the concatenation.  From an empty carry-over the outcome is the one read
off the whole buffer: by size, the first `size` bytes and the bytes after
them; by delimiter, the bytes before the first delimiter and the bytes after
it, the three parts making up the buffer again; by EOF, the whole buffer; so no
byte is lost or duplicated.  The 4-byte length prefix 00 00 00 03 followed by
"ab" and then "c" gives incomplete, incomplete, then the one field "abc" of
length 3. -/
theorem c2_streaming_equivalence (pstate : AppLayerParserState) (field_idx size : Nat)
    (delim c : List Nat) (cs : List (List Nat)) :
    (streamBySize field_idx size pstate c cs =
      streamBySize field_idx size pstate (c :: cs).flatten []) ∧
    (streamByDelimiter field_idx delim pstate c cs =
      streamByDelimiter field_idx delim pstate (c :: cs).flatten []) ∧
    (pstate.flags &&& APP_LAYER_PARSER_EOF = 0 →
      streamByEOF field_idx pstate c cs = streamByEOF field_idx pstate (c :: cs).flatten []) ∧
    (pstate.store = [] →
      streamBySize field_idx size pstate c cs =
        if (c :: cs).flatten.length < size then ⟨[], (c :: cs).flatten, []⟩
        else ⟨[(field_idx, (c :: cs).flatten.take size)], [], (c :: cs).flatten.drop size⟩) ∧
    (pstate.store = [] →
      streamByDelimiter field_idx delim pstate c cs =
        match findDelim delim (c :: cs).flatten with
        | none => ⟨[], (c :: cs).flatten, []⟩
        | some i => ⟨[(field_idx, (c :: cs).flatten.take i)], [],
                     (c :: cs).flatten.drop (i + delim.length)⟩) ∧
    (∀ i, findDelim delim (c :: cs).flatten = some i →
      (c :: cs).flatten.take i ++ delim ++ (c :: cs).flatten.drop (i + delim.length) =
        (c :: cs).flatten) ∧
    (pstate.store = [] → pstate.flags &&& APP_LAYER_PARSER_EOF = 0 →
      streamByEOF field_idx pstate c cs = ⟨[(field_idx, (c :: cs).flatten)], [], []⟩) ∧
    (runLengthPrefixedParser 0 freshParserState [[0, 0, 0, 3], [97, 98], [99]]).map
        (fun r => (r.ret, r.output.map (fun e => (e.data, e.data.length)))) =
      [(0, []), (0, []), (1, [([97, 98, 99], 3)])] := by
  refine ⟨streamBySize_eq _ _ _ _ _, streamByDelimiter_eq _ _ _ _ _,
    fun h => streamByEOF_eq _ _ _ _ h, ?_, ?_, ?_, ?_, by decide⟩
  · intro hs
    rw [streamBySize_eq]
    generalize (c :: cs).flatten = whole
    simp only [streamBySize, feedChunks]
    by_cases h : whole.length < size
    · rw [bySize_lt _ _ _ _ _ _ (by rw [hs]; simpa using h)]
      simp [observe, hs, h]
    · rw [bySize_ge _ _ _ _ _ _ (by rw [hs]; simpa using h)]
      simp [observe, hs, h, AlpStoreField]
  · intro hs
    rw [streamByDelimiter_eq]
    generalize (c :: cs).flatten = whole
    simp only [streamByDelimiter, feedChunks]
    cases hf : findDelim delim whole with
    | none =>
      rw [byDelimiter_none _ _ _ _ _ _ (by rw [hs]; simpa using hf)]
      simp [observe, hs]
    | some i =>
      rw [byDelimiter_some _ _ _ _ _ _ i (by rw [hs]; simpa using hf)]
      simp [observe, hs, AlpStoreField]
  · intro i hi
    exact (findDelim_split delim _ i hi).symm
  · intro hs hflag
    rw [streamByEOF_eq _ _ _ _ hflag]
    generalize (c :: cs).flatten = whole
    simp only [streamByEOF, feedChunks]
    rw [byEOF_set _ _ _ _ (signalEOF_flag _)]
    simp [observe, hs, AlpStoreField, signalEOF]

/-- Witness for C2: the delimiter CR LF split across two chunks, a sized
field completed in the third of four chunks, and an EOF field over three
chunks one of which is empty. -/
theorem c2_streaming_equivalence_witness :
    streamByDelimiter 0 [13, 10] freshParserState [97, 13] [[10, 98]] =
      ⟨[(0, [97])], [], [98]⟩ ∧
    streamBySize 0 3 freshParserState [97] [[], [10, 98, 4], [5]] =
      ⟨[(0, [97, 10, 98])], [], [4, 5]⟩ ∧
    streamByEOF 0 freshParserState [97, 13] [[], [10, 98]] =
      ⟨[(0, [97, 13, 10, 98])], [], []⟩ ∧
    freshParserState.flags &&& APP_LAYER_PARSER_EOF = 0 ∧
    streamByEOF 0 freshParserState [97, 13] [[], [10, 98]] =
      streamByEOF 0 freshParserState ([97, 13] :: [[], [10, 98]]).flatten [] :=
  ⟨by decide, by decide, by decide, by decide,
   (c2_streaming_equivalence freshParserState 0 3 [13, 10] [97, 13] [[], [10, 98]]).2.2.1
     (by decide)⟩

end AppLayerParser
